import Mathlib

/-!
Verification of the account rotation and credential-refresh core of
business-gemini-pool (a Deno Fresh proxy exposing an OpenAI-compatible API
over a pool of upstream Gemini Enterprise accounts).

The embedding follows the sources under the repository:
- `lib/types.ts` (the `Account` record and `JWTCache`),
- `lib/auth.ts` (session/API-key authentication, embedded in full in
  SESSION_PERSISTENCE_UPDATE.md),
- `routes/api/accounts/[id]/index.ts` and `routes/api/accounts/[id]/toggle.ts`
  (the account-management HTTP handlers).

The rotation scheduler (`lib/account-manager.ts`) and the JWT cache manager
(`lib/jwt-manager.ts`) are not part of the source tree; definitions for them
are modelled from the specification (and the README excerpts) and are marked
as such in their doc comments.
-/

/-- The `Account` record, translated from `lib/types.ts`. -/
structure Account where
  id : String
  team_id : String
  secure_c_ses : String
  host_c_oses : String
  csesidx : String
  user_agent : String
  available : Bool
  unavailable_reason : Option String
  unavailable_time : Option String
  created_at : Nat
deriving DecidableEq

/-- A fallback record used only as the default of total list indexing. -/
def defaultAccount : Account :=
  { id := "", team_id := "", secure_c_ses := "", host_c_oses := "", csesidx := ""
    user_agent := "", available := true, unavailable_reason := none
    unavailable_time := none, created_at := 0 }

/-- The health invariant of spec section 3: a record with `available = false`
always carries a non-empty `unavailable_reason`. -/
def accountInv (a : Account) : Prop :=
  a.available = false → ∃ r, a.unavailable_reason = some r ∧ r ≠ ""

instance (a : Account) : Decidable (accountInv a) := by
  unfold accountInv
  cases h : a.unavailable_reason with
  | none => exact decidable_of_iff (a.available = true) (by simp [h])
  | some r =>
    exact decidable_of_iff (a.available = false → r ≠ "")
      (by constructor
          · intro hr hav
            exact ⟨r, rfl, hr hav⟩
          · intro hr hav
            obtain ⟨r2, hr2, hne⟩ := hr hav
            cases hr2
            exact hne)

/-- Modelled from the spec: `lib/account-manager.ts` is not under the source
tree. Spec section 3 requires that `available=false` always carries a
non-empty `unavailable_reason`, so a missing or empty reason is replaced by a
fixed non-empty marker when a record is being disabled. -/
def reasonOrDefault (reason : Option String) : String :=
  match reason with
  | some r => if r = "" then "unavailable" else r
  | none => "unavailable"

/-- Modelled from the spec: applies an availability flip to a single record,
clearing the reason on re-enable and recording a non-empty reason together
with an `unavailable_time` marker on disable (spec sections 3 and 4.1). -/
def applyAvailability (a : Account) (avail : Bool) (reason : Option String)
    (time : String) : Account :=
  if avail then
    { a with available := true, unavailable_reason := none, unavailable_time := none }
  else
    { a with available := false, unavailable_reason := some (reasonOrDefault reason)
             unavailable_time := some time }

/-- Modelled from the spec: Account Registry contract of section 4.1,
`setAvailability(id, available, reason?) -> success | NotFound`; `none`
plays the `NotFound` outcome. -/
def setAvailability (accs : List Account) (id : String) (avail : Bool)
    (reason : Option String) (time : String) : Option (List Account) :=
  if accs.any (fun a => a.id = id) then
    some (accs.map (fun a => if a.id = id then applyAvailability a avail reason time else a))
  else
    none

/-- Modelled from the spec: the toggle operation behind
`POST /api/accounts/:id/toggle` flips the current `available` flag through
`setAvailability` and reports the new flag. -/
def toggleAvailability (accs : List Account) (id : String) (time : String) :
    Option (Bool × List Account) :=
  match accs.find? (fun a => a.id = id) with
  | none => none
  | some a =>
    match setAvailability accs id (!a.available) none time with
    | none => none
    | some accs2 => some (!a.available, accs2)

/-- The partial update payload accepted by `PUT /api/accounts/:id`, restricted
to the health fields the core mutates (spec section 3 lifecycle). -/
structure AccountUpdate where
  available : Option Bool
  unavailable_reason : Option String
deriving DecidableEq

/-- Modelled from the spec: `updateAccount` of `lib/account-manager.ts`
(absent from the source tree) applies a partial update to the record with the
given id and reports `NotFound` as `none`. Availability changes go through
`applyAvailability`, the single mutation path of spec section 4.1. -/
def updateAccount (accs : List Account) (id : String) (u : AccountUpdate)
    (time : String) : Option (List Account) :=
  if accs.any (fun a => a.id = id) then
    some (accs.map (fun a =>
      if a.id = id then
        match u.available with
        | none => a
        | some b => applyAvailability a b u.unavailable_reason time
      else a))
  else
    none

/-- Modelled from the spec: the `CredentialExchangeFailed` health transition
of sections 4.2 and 7 marks the failing account unavailable through the
Registry with the failure cause recorded in `unavailable_reason`. -/
def markCredentialExchangeFailed (accs : List Account) (id : String)
    (cause : String) (time : String) : Option (List Account) :=
  setAvailability accs id false (some ("CredentialExchangeFailed: " ++ cause)) time

theorem applyAvailability_inv (a : Account) (avail : Bool) (reason : Option String)
    (time : String) : accountInv (applyAvailability a avail reason time) := by
  unfold applyAvailability accountInv
  cases avail with
  | true => intro h; simp at h
  | false =>
    intro _
    refine ⟨reasonOrDefault reason, by simp, ?_⟩
    unfold reasonOrDefault
    cases reason with
    | none => simp
    | some r =>
      by_cases hr : r = ""
      · simp [hr]
      · simp [hr]

theorem setAvailability_inv (accs : List Account) (id : String) (avail : Bool)
    (reason : Option String) (time : String) (accs2 : List Account)
    (hinv : ∀ a ∈ accs, accountInv a)
    (h : setAvailability accs id avail reason time = some accs2) :
    ∀ a ∈ accs2, accountInv a := by
  unfold setAvailability at h
  by_cases hmem : accs.any (fun a => a.id = id)
  · rw [if_pos hmem] at h
    cases h
    intro a ha
    rw [List.mem_map] at ha
    obtain ⟨b, hb, hba⟩ := ha
    by_cases hid : b.id = id
    · rw [if_pos hid] at hba
      rw [← hba]
      exact applyAvailability_inv b avail reason time
    · rw [if_neg hid] at hba
      rw [← hba]
      exact hinv b hb
  · rw [if_neg hmem] at h
    cases h

/-- Claim C8: for every Account record reachable through the mutation paths of
the core (`setAvailability`, the toggle operation, the partial update, and the
credential-failure health transition), whenever `available` is `false` the
record carries a non-empty `unavailable_reason`; no operation yields a record
with `available = false` and an absent or empty reason. -/
theorem account_unavailable_reason_invariant
    (accs accs2 : List Account) (id : String) (time : String)
    (hinv : ∀ a ∈ accs, accountInv a) :
    (∀ avail reason, setAvailability accs id avail reason time = some accs2 →
        ∀ a ∈ accs2, accountInv a) ∧
    (∀ b, toggleAvailability accs id time = some (b, accs2) →
        ∀ a ∈ accs2, accountInv a) ∧
    (∀ u, updateAccount accs id u time = some accs2 →
        ∀ a ∈ accs2, accountInv a) ∧
    (∀ cause, markCredentialExchangeFailed accs id cause time = some accs2 →
        ∀ a ∈ accs2, accountInv a) := by
  refine ⟨?_, ?_, ?_, ?_⟩
  · intro avail reason h
    exact setAvailability_inv accs id avail reason time accs2 hinv h
  · intro b h
    unfold toggleAvailability at h
    split at h
    · cases h
    · rename_i a0 hf
      split at h
      · cases h
      · rename_i accs3 hs
        cases h
        exact setAvailability_inv accs id (!a0.available) none time accs2 hinv hs
  · intro u h
    unfold updateAccount at h
    by_cases hmem : accs.any (fun a => a.id = id)
    · rw [if_pos hmem] at h
      cases h
      intro a ha
      rw [List.mem_map] at ha
      obtain ⟨b, hb, hba⟩ := ha
      by_cases hid : b.id = id
      · rw [if_pos hid] at hba
        cases hu : u.available with
        | none => rw [hu] at hba; rw [← hba]; exact hinv b hb
        | some bv =>
          rw [hu] at hba
          rw [← hba]
          exact applyAvailability_inv b bv u.unavailable_reason time
      · rw [if_neg hid] at hba
        rw [← hba]
        exact hinv b hb
    · rw [if_neg hmem] at h
      cases h
  · intro cause h
    exact setAvailability_inv accs id false
      (some ("CredentialExchangeFailed: " ++ cause)) time accs2 hinv h

/-- A concrete enabled account used by witnesses. -/
def acctA : Account := { defaultAccount with id := "a1" }

/-- The record produced by disabling `acctA` with an empty reason. -/
def acctADisabled : Account :=
  { defaultAccount with
      id := "a1"
      available := false
      unavailable_reason := some "unavailable"
      unavailable_time := some "t0" }

/-- Witness for C8 at a concrete registry: disabling account `a1` with an
empty reason still yields a record satisfying the invariant. -/
theorem account_unavailable_reason_invariant_witness : accountInv acctADisabled :=
  (account_unavailable_reason_invariant [acctA] [acctADisabled]
    "a1" "t0" (by decide)).1 false (some "") (by decide) acctADisabled (by simp)

/-! ## Authentication layer, translated from `lib/auth.ts` -/

/-- An inbound HTTP request, restricted to the fields the authentication
layer of `lib/auth.ts` inspects: the `Authorization` header and the
`session` cookie. -/
structure HttpRequest where
  authorization : Option String
  cookieSession : Option String
deriving DecidableEq

/-- The durable authentication state: the live session tokens stored under
the `sessions` keyspace of Deno KV, and the admin password taken from the
`ADMIN_PASSWORD` environment variable. -/
structure AuthState where
  sessions : List String
  adminPassword : String
deriving DecidableEq

/-- The ASCII part of the whitespace class matched by the `Bearer` header
regex of `lib/auth.ts`. -/
def isRegexSpace (c : Char) : Bool :=
  c == ' ' || c == '\t' || c == '\n' || c == '\r' || c == '\x0B' || c == '\x0C'

/-- Line terminators, which the dot of the header regex does not match. -/
def isLineTerm (c : Char) : Bool :=
  c == '\n' || c == '\r'

/-- Case-insensitive removal of the leading `Bearer` word of the
`Authorization` header, per the anchored regex in `lib/auth.ts`. -/
def stripBearerWord : List Char → Option (List Char)
  | b :: e :: a :: r :: e2 :: r2 :: rest =>
    if b.toLower == 'b' && e.toLower == 'e' && a.toLower == 'a' &&
       r.toLower == 'r' && e2.toLower == 'e' && r2.toLower == 'r' then
      some rest
    else
      none
  | _ => none

/-- Greedy backtracking over the whitespace run after the `Bearer` word: the
longest split whose remainder is non-empty and free of line terminators wins,
mirroring the engine behaviour of the regex in `lib/auth.ts`. -/
def bearerBacktrack (cs : List Char) : Nat → Option (List Char)
  | 0 => none
  | k + 1 =>
    let r := cs.drop (k + 1)
    if r.length != 0 && r.all (fun c => !(isLineTerm c)) then
      some r
    else
      bearerBacktrack cs k

/-- The captured group of the header regex of `lib/auth.ts`, or `none` when
the header does not match it. -/
def bearerToken (h : String) : Option String :=
  match stripBearerWord h.data with
  | none => none
  | some rest =>
    (bearerBacktrack rest (rest.takeWhile isRegexSpace).length).map
      (fun r => String.mk r)

/-- `getApiKeyFromRequest` of `lib/auth.ts`: the regex capture when the
header matches, the raw header otherwise, `none` without a header. -/
def getApiKeyFromRequest (req : HttpRequest) : Option String :=
  match req.authorization with
  | none => none
  | some h =>
    match bearerToken h with
    | some t => some t
    | none => some h

/-- `verifyApiKey` of `lib/auth.ts`: strict equality with the admin
password. -/
def verifyApiKey (st : AuthState) (k : String) : Bool :=
  k == st.adminPassword

/-- `isApiAuthenticated` of `lib/auth.ts`. -/
def isApiAuthenticated (st : AuthState) (req : HttpRequest) : Bool :=
  match getApiKeyFromRequest req with
  | none => false
  | some k => verifyApiKey st k

/-- `getSessionToken` of `lib/auth.ts`: the `session` cookie value. -/
def getSessionToken (req : HttpRequest) : Option String :=
  req.cookieSession

/-- `isValidSession` of `lib/auth.ts`: the KV entry for the token exists. -/
def isValidSession (st : AuthState) (token : String) : Bool :=
  st.sessions.contains token

/-- `isAuthenticated` of `lib/auth.ts`: cookie-based authentication. -/
def isAuthenticated (st : AuthState) (req : HttpRequest) : Bool :=
  match getSessionToken req with
  | none => false
  | some t => isValidSession st t

/-- `isAuthenticatedAny` of `lib/auth.ts`: cookie or API key. -/
def isAuthenticatedAny (st : AuthState) (req : HttpRequest) : Bool :=
  isAuthenticated st req || isApiAuthenticated st req

/-- An HTTP response, restricted to its status code. -/
structure HttpResponse where
  status : Nat
deriving DecidableEq

/-- `requireAuth` of `lib/auth.ts`: `some` 401 response when neither
authentication mode passes, `none` when the request may proceed. -/
def requireAuth (st : AuthState) (req : HttpRequest) : Option HttpResponse :=
  if isAuthenticatedAny st req then none else some { status := 401 }

/-! ## Account-management HTTP handlers, translated from
`routes/api/accounts/[id]/index.ts` and `routes/api/accounts/[id]/toggle.ts` -/

/-- One observable operation of the account manager; the handlers record the
manager calls they perform, in order. -/
inductive ManagerOp where
  | readAccount (id : String)
  | writeAccount (id : String)
  | removeAccount (id : String)
deriving DecidableEq

/-- `getAccount` of the Account Registry (contract of spec section 4.1):
first record with the given id, `none` when absent. -/
def getAccount (accs : List Account) (id : String) : Option Account :=
  accs.find? (fun a => a.id = id)

/-- Modelled from the spec: `deleteAccount` of `lib/account-manager.ts`
(absent from the source tree) removes the record and reports absence as
`none`. -/
def deleteAccount (accs : List Account) (id : String) : Option (List Account) :=
  if accs.any (fun a => a.id = id) then
    some (accs.filter (fun a => !(a.id == id)))
  else
    none

/-- What a handler produced: the response, the registry afterwards, and the
log of manager operations it performed. -/
structure HandlerResult where
  response : HttpResponse
  accounts : List Account
  ops : List ManagerOp
deriving DecidableEq

/-- The POST handler of `routes/api/accounts/[id]/toggle.ts`: authentication
first, then a 404 when the account is absent, otherwise the toggle and a
success body. -/
def togglePostHandler (st : AuthState) (req : HttpRequest) (accs : List Account)
    (id : String) (time : String) : HandlerResult :=
  match requireAuth st req with
  | some resp => { response := resp, accounts := accs, ops := [] }
  | none =>
    match getAccount accs id with
    | none => { response := { status := 404 }, accounts := accs, ops := [.readAccount id] }
    | some _ =>
      match toggleAvailability accs id time with
      | some (_, accs2) =>
        { response := { status := 200 }, accounts := accs2
          ops := [.readAccount id, .writeAccount id] }
      | none =>
        { response := { status := 500 }, accounts := accs
          ops := [.readAccount id, .writeAccount id] }

/-- The GET handler of `routes/api/accounts/[id]/index.ts`. -/
def accountGetHandler (st : AuthState) (req : HttpRequest) (accs : List Account)
    (id : String) : HandlerResult :=
  match requireAuth st req with
  | some resp => { response := resp, accounts := accs, ops := [] }
  | none =>
    match getAccount accs id with
    | none => { response := { status := 404 }, accounts := accs, ops := [.readAccount id] }
    | some _ => { response := { status := 200 }, accounts := accs, ops := [.readAccount id] }

/-- The PUT handler of `routes/api/accounts/[id]/index.ts`: authentication,
then `updateAccount`, a 404 on absence, and a re-read for the success body. -/
def accountPutHandler (st : AuthState) (req : HttpRequest) (accs : List Account)
    (id : String) (u : AccountUpdate) (time : String) : HandlerResult :=
  match requireAuth st req with
  | some resp => { response := resp, accounts := accs, ops := [] }
  | none =>
    match updateAccount accs id u time with
    | none => { response := { status := 404 }, accounts := accs, ops := [.writeAccount id] }
    | some accs2 =>
      { response := { status := 200 }, accounts := accs2
        ops := [.writeAccount id, .readAccount id] }

/-- The DELETE handler of `routes/api/accounts/[id]/index.ts`. -/
def accountDeleteHandler (st : AuthState) (req : HttpRequest) (accs : List Account)
    (id : String) : HandlerResult :=
  match requireAuth st req with
  | some resp => { response := resp, accounts := accs, ops := [] }
  | none =>
    match deleteAccount accs id with
    | none => { response := { status := 404 }, accounts := accs, ops := [.removeAccount id] }
    | some accs2 =>
      { response := { status := 200 }, accounts := accs2, ops := [.removeAccount id] }

theorem getAccount_eq_none_iff (accs : List Account) (id : String) :
    getAccount accs id = none ↔ accs.any (fun a => a.id = id) = false := by
  unfold getAccount
  simp [List.find?_eq_none, List.any_eq_false]

theorem toggleAvailability_isSome (accs : List Account) (id time : String)
    (a0 : Account) (hg : getAccount accs id = some a0) :
    ∃ accs2, toggleAvailability accs id time = some (!a0.available, accs2) := by
  have hmem : a0 ∈ accs := List.mem_of_find?_eq_some hg
  have hid : a0.id = id := by
    have h := List.find?_some hg
    simpa using h
  have hany : accs.any (fun a => a.id = id) = true := by
    rw [List.any_eq_true]
    exact ⟨a0, hmem, by simpa using hid⟩
  unfold toggleAvailability
  unfold getAccount at hg
  rw [hg]
  show ∃ accs2,
    (match setAvailability accs id (!a0.available) none time with
      | none => none
      | some accs2 => some (!a0.available, accs2)) = some (!a0.available, accs2)
  have hset : setAvailability accs id (!a0.available) none time =
      some (accs.map (fun a =>
        if a.id = id then applyAvailability a (!a0.available) none time else a)) := by
    unfold setAvailability
    rw [if_pos hany]
  rw [hset]
  exact ⟨_, rfl⟩

/-- Claim C9: `setAvailability` signals absence as `NotFound` exactly when no
account with the given id exists, and the authenticated toggle and update
handlers map that outcome to a 404 response, mapping success to a success
response. -/
theorem setAvailability_notfound_maps_to_404
    (st : AuthState) (req : HttpRequest) (accs : List Account) (id : String)
    (u : AccountUpdate) (time : String) (avail : Bool) (reason : Option String)
    (hauth : requireAuth st req = none) :
    (setAvailability accs id avail reason time = none ↔ getAccount accs id = none) ∧
    ((togglePostHandler st req accs id time).response.status =
        if getAccount accs id = none then 404 else 200) ∧
    ((accountPutHandler st req accs id u time).response.status =
        if getAccount accs id = none then 404 else 200) := by
  refine ⟨?_, ?_, ?_⟩
  · by_cases hmem : accs.any (fun a => a.id = id)
    · unfold setAvailability
      rw [if_pos hmem]
      simp [getAccount_eq_none_iff, hmem]
    · unfold setAvailability
      rw [if_neg hmem]
      rw [Bool.not_eq_true] at hmem
      simp [getAccount_eq_none_iff, hmem]
  · unfold togglePostHandler
    rw [hauth]
    cases hg : getAccount accs id with
    | none => simp [hg]
    | some a0 =>
      obtain ⟨accs2, ht⟩ := toggleAvailability_isSome accs id time a0 hg
      simp [hg, ht]
  · unfold accountPutHandler
    rw [hauth]
    by_cases hmem : accs.any (fun a => a.id = id)
    · have hupd : updateAccount accs id u time =
          some (accs.map (fun a =>
            if a.id = id then
              match u.available with
              | none => a
              | some b => applyAvailability a b u.unavailable_reason time
            else a)) := by
        unfold updateAccount
        rw [if_pos hmem]
      have hg : ¬ (getAccount accs id = none) := by
        rw [getAccount_eq_none_iff]
        simp [hmem]
      simp [hupd, hg]
    · have hupd : updateAccount accs id u time = none := by
        unfold updateAccount
        rw [if_neg hmem]
      rw [Bool.not_eq_true] at hmem
      have hg : getAccount accs id = none := by
        rw [getAccount_eq_none_iff]
        exact hmem
      simp [hupd, hg]

/-- Witness for C9: an authenticated request against a one-account registry;
the account exists, so both handlers answer 200 and `setAvailability`
succeeds. -/
theorem setAvailability_notfound_maps_to_404_witness :
    (setAvailability [acctA] "a1" false none "t0" = none ↔
        getAccount [acctA] "a1" = none) ∧
    ((togglePostHandler ⟨[], "pw"⟩ ⟨some "Bearer pw", none⟩ [acctA] "a1" "t0").response.status =
        if getAccount [acctA] "a1" = none then 404 else 200) ∧
    ((accountPutHandler ⟨[], "pw"⟩ ⟨some "Bearer pw", none⟩ [acctA] "a1"
        ⟨none, none⟩ "t0").response.status =
        if getAccount [acctA] "a1" = none then 404 else 200) :=
  setAvailability_notfound_maps_to_404 ⟨[], "pw"⟩ ⟨some "Bearer pw", none⟩
    [acctA] "a1" ⟨none, none⟩ "t0" false none (by decide)

/-- Claim C10: a request to the account-management endpoints carrying neither
a live session cookie nor an API key equal to the admin password gets a 401
response from every handler, with the registry untouched and no manager
operation performed. -/
theorem unauthenticated_account_requests_rejected
    (st : AuthState) (req : HttpRequest) (accs : List Account) (id : String)
    (u : AccountUpdate) (time : String)
    (hcookie : ∀ t, req.cookieSession = some t → st.sessions.contains t = false)
    (hkey : ∀ k, getApiKeyFromRequest req = some k → ¬ k = st.adminPassword) :
    accountGetHandler st req accs id =
      { response := { status := 401 }, accounts := accs, ops := [] } ∧
    accountPutHandler st req accs id u time =
      { response := { status := 401 }, accounts := accs, ops := [] } ∧
    accountDeleteHandler st req accs id =
      { response := { status := 401 }, accounts := accs, ops := [] } ∧
    togglePostHandler st req accs id time =
      { response := { status := 401 }, accounts := accs, ops := [] } := by
  have hany : isAuthenticatedAny st req = false := by
    unfold isAuthenticatedAny isAuthenticated isApiAuthenticated
    rw [Bool.or_eq_false_iff]
    constructor
    · unfold getSessionToken isValidSession
      cases hcs : req.cookieSession with
      | none => rfl
      | some t => exact hcookie t hcs
    · unfold verifyApiKey
      cases hk : getApiKeyFromRequest req with
      | none => rfl
      | some k =>
        have h := hkey k hk
        simpa using h
  have hreq : requireAuth st req = some { status := 401 } := by
    unfold requireAuth
    rw [hany]
    simp
  refine ⟨?_, ?_, ?_, ?_⟩
  · unfold accountGetHandler
    rw [hreq]
  · unfold accountPutHandler
    rw [hreq]
  · unfold accountDeleteHandler
    rw [hreq]
  · unfold togglePostHandler
    rw [hreq]

/-- Witness for C10: a request with a dead session cookie and an API key that
differs from the admin password is rejected by all four handlers. -/
theorem unauthenticated_account_requests_rejected_witness :
    accountGetHandler ⟨["s1"], "pw"⟩ ⟨some "Bearer wrong", some "s2"⟩ [acctA] "a1" =
      { response := { status := 401 }, accounts := [acctA], ops := [] } ∧
    accountPutHandler ⟨["s1"], "pw"⟩ ⟨some "Bearer wrong", some "s2"⟩ [acctA] "a1"
        ⟨none, none⟩ "t0" =
      { response := { status := 401 }, accounts := [acctA], ops := [] } ∧
    accountDeleteHandler ⟨["s1"], "pw"⟩ ⟨some "Bearer wrong", some "s2"⟩ [acctA] "a1" =
      { response := { status := 401 }, accounts := [acctA], ops := [] } ∧
    togglePostHandler ⟨["s1"], "pw"⟩ ⟨some "Bearer wrong", some "s2"⟩ [acctA] "a1" "t0" =
      { response := { status := 401 }, accounts := [acctA], ops := [] } :=
  unauthenticated_account_requests_rejected ⟨["s1"], "pw"⟩
    ⟨some "Bearer wrong", some "s2"⟩ [acctA] "a1" ⟨none, none⟩ "t0"
    (by intro t ht
        simp only [Option.some.injEq] at ht
        subst ht
        decide)
    (by intro k hk
        have h2 : getApiKeyFromRequest ⟨some "Bearer wrong", some "s2"⟩ = some "wrong" := by
          decide
        rw [h2] at hk
        simp only [Option.some.injEq] at hk
        subst hk
        decide)

/-! ## Credential cache, modelled from the spec and README
(`lib/jwt-manager.ts` is absent from the source tree) -/

/-- The `JWTCache` record, translated from `lib/types.ts`: the derived token
and its absolute expiry (epoch milliseconds). -/
structure JWTCache where
  jwt : String
  expires_at : Nat
deriving DecidableEq

/-- Modelled from the spec and README: the cached lifetime of a derived
token, in seconds; a fixed constant (240 seconds). -/
def JWT_CACHE_SECONDS : Nat := 240

/-- Modelled from the spec and README: the true upstream validity window of
a derived token, in seconds (300 seconds). -/
def UPSTREAM_JWT_LIFETIME_SECONDS : Nat := 300

/-- Whether `getValidToken` answered from the cache or performed a fresh
upstream credential exchange. -/
inductive TokenSource where
  | cached (jwt : String)
  | fresh (jwt : String)
deriving DecidableEq

/-- Modelled from the spec: `getValidToken` of `lib/jwt-manager.ts` (absent
from the source tree), per section 4.2: return the cached token while the
current time is strictly before its trimmed expiry; otherwise perform the
upstream exchange (`exchanged` stands for its result) and store it with
expiry `now + 240 s`. -/
def getValidToken (cache : Option JWTCache) (now : Nat) (exchanged : String) :
    TokenSource × JWTCache :=
  match cache with
  | some c =>
    if now < c.expires_at then
      (TokenSource.cached c.jwt, c)
    else
      (TokenSource.fresh exchanged, { jwt := exchanged, expires_at := now + JWT_CACHE_SECONDS * 1000 })
  | none =>
    (TokenSource.fresh exchanged, { jwt := exchanged, expires_at := now + JWT_CACHE_SECONDS * 1000 })

/-- Claim C4: a token cached with trimmed expiry `t` is never returned by
`getValidToken` once the current time is at or past `t`; a fresh upstream
exchange happens instead. -/
theorem getValidToken_expiry_safety (c : JWTCache) (now : Nat) (exchanged : String)
    (hexp : c.expires_at ≤ now) :
    (getValidToken (some c) now exchanged).1 = TokenSource.fresh exchanged ∧
    ∀ s, (getValidToken (some c) now exchanged).1 ≠ TokenSource.cached s := by
  have hlt : ¬ (now < c.expires_at) := by omega
  simp only [getValidToken]
  rw [if_neg hlt]
  exact ⟨rfl, fun s h => by cases h⟩

/-- Witness for C4: a token that expired at time 1000 is not served at time
1000. -/
theorem getValidToken_expiry_safety_witness :
    (getValidToken (some ⟨"old", 1000⟩) 1000 "new").1 = TokenSource.fresh "new" ∧
    ∀ s, (getValidToken (some ⟨"old", 1000⟩) 1000 "new").1 ≠ TokenSource.cached s :=
  getValidToken_expiry_safety ⟨"old", 1000⟩ 1000 "new" (by decide)

/-- Claim C7: the trimmed-expiry policy is a fixed pair of constants, 240
seconds of cached lifetime against a 300-second true upstream lifetime, and
every credential stored by `getValidToken` expires strictly before the true
upstream validity window elapses. -/
theorem jwt_trimmed_expiry_policy :
    JWT_CACHE_SECONDS = 240 ∧
    UPSTREAM_JWT_LIFETIME_SECONDS = 300 ∧
    JWT_CACHE_SECONDS < UPSTREAM_JWT_LIFETIME_SECONDS ∧
    (∀ now exchanged,
      (getValidToken none now exchanged).2.expires_at =
          now + JWT_CACHE_SECONDS * 1000 ∧
      (getValidToken none now exchanged).2.expires_at <
          now + UPSTREAM_JWT_LIFETIME_SECONDS * 1000) ∧
    (∀ c now exchanged, c.expires_at ≤ now →
      (getValidToken (some c) now exchanged).2.expires_at <
          now + UPSTREAM_JWT_LIFETIME_SECONDS * 1000) := by
  refine ⟨rfl, rfl, by decide, ?_, ?_⟩
  · intro now exchanged
    constructor
    · rfl
    · show now + JWT_CACHE_SECONDS * 1000 < now + UPSTREAM_JWT_LIFETIME_SECONDS * 1000
      simp only [JWT_CACHE_SECONDS, UPSTREAM_JWT_LIFETIME_SECONDS]
      omega
  · intro c now exchanged hexp
    have hlt : ¬ (now < c.expires_at) := by omega
    simp only [getValidToken]
    rw [if_neg hlt]
    show now + JWT_CACHE_SECONDS * 1000 < now + UPSTREAM_JWT_LIFETIME_SECONDS * 1000
    simp only [JWT_CACHE_SECONDS, UPSTREAM_JWT_LIFETIME_SECONDS]
    omega

/-- Witness for C7 (the last conjunct carries a hypothesis): the policy
evaluated on a concrete expired cache entry. -/
theorem jwt_trimmed_expiry_policy_witness :
    (getValidToken (some ⟨"old", 5⟩) 7 "new").2.expires_at <
        7 + UPSTREAM_JWT_LIFETIME_SECONDS * 1000 :=
  (jwt_trimmed_expiry_policy.2.2.2.2) ⟨"old", 5⟩ 7 "new" (by decide)

/-! ## Rotation scheduler, modelled from the spec and the README excerpt of
`lib/account-manager.ts` (the file itself is absent from the source tree) -/

/-- The filtered pool the scheduler rotates over: accounts with
`available = true`, in stable list order (spec section 4.3). -/
def availableAccounts (accs : List Account) : List Account :=
  accs.filter (fun a => a.available)

/-- The durable rotation cursor together with the store version Deno KV
attaches to the key (the `versionstamp` checked by `kv.atomic().check`). -/
structure RotationStore where
  cursor : Nat
  version : Nat
deriving DecidableEq

/-- Outcome of a pick (spec section 4.3 contract plus the retry-budget
failure of section 7). -/
inductive PickResult where
  | picked (account : Account)
  | exhausted
  | rotationUnavailable
deriving DecidableEq

/-- Modelled from the README excerpt: the conditional commit of
`kv.atomic().check(res).set(indexKey, nextIndex).commit()` — the write
applies only when the version at commit time still equals the version read,
and a successful commit advances the store version. -/
def occCommit (read : RotationStore) (current : RotationStore) (next : Nat) :
    Option RotationStore :=
  if current.version = read.version then
    some { cursor := next, version := current.version + 1 }
  else
    none

/-- Modelled from the spec (section 4.3): one `pickAccount()` call as a
read-compute-commit loop. `interf` supplies, per attempt, the interference
other racing requests apply to the store between the read and the commit
(`id` when nothing races); `fuel` is the retry budget, exhausted as
`RotationUnavailable`. On success the account at the pre-increment cursor of
the filtered list is returned and the cursor advances by one modulo the
filtered count. -/
def pickLoop (accs : List Account) :
    Nat → List (RotationStore → RotationStore) → RotationStore →
    PickResult × RotationStore
  | 0, _, s => (PickResult.rotationUnavailable, s)
  | fuel + 1, interf, s =>
    if (availableAccounts accs).length = 0 then
      (PickResult.exhausted, s)
    else
      match occCommit s (interf.headD id s) ((s.cursor + 1) % (availableAccounts accs).length) with
      | some s2 =>
        (PickResult.picked ((availableAccounts accs).getD
            (s.cursor % (availableAccounts accs).length) defaultAccount), s2)
      | none => pickLoop accs fuel interf.tail (interf.headD id s)

/-- Claim C2: the cursor is mutated only through the read-version /
conditional-write cycle — a commit applies exactly when the version is
unchanged since the read (and then bumps it), a changed version makes the
commit a no-op, and on such a conflict the pick retries the whole
read-compute-commit cycle from scratch instead of writing unconditionally. -/
theorem rotation_cursor_occ (read : RotationStore) (current : RotationStore)
    (next : Nat) :
    (∀ s2, occCommit read current next = some s2 →
        current.version = read.version ∧
        s2 = { cursor := next, version := read.version + 1 }) ∧
    (current.version ≠ read.version → occCommit read current next = none) ∧
    (∀ accs fuel interf (s : RotationStore),
        (availableAccounts accs).length ≠ 0 →
        (interf.headD id s).version ≠ s.version →
        pickLoop accs (fuel + 1) interf s =
          pickLoop accs fuel interf.tail (interf.headD id s)) := by
  refine ⟨?_, ?_, ?_⟩
  · intro s2 h
    unfold occCommit at h
    by_cases hv : current.version = read.version
    · rw [if_pos hv] at h
      cases h
      exact ⟨hv, by rw [hv]⟩
    · rw [if_neg hv] at h
      cases h
  · intro hne
    unfold occCommit
    rw [if_neg hne]
  · intro accs fuel interf s hlen hver
    have hocc : occCommit s (interf.headD id s)
        ((s.cursor + 1) % (availableAccounts accs).length) = none := by
      unfold occCommit
      rw [if_neg hver]
    simp only [pickLoop]
    rw [if_neg hlen, hocc]

/-- Witness for C2: a commit against a store whose version moved from 0 to 1
between read and commit does not write. -/
theorem rotation_cursor_occ_witness : occCommit ⟨0, 0⟩ ⟨5, 1⟩ 1 = none :=
  (rotation_cursor_occ ⟨0, 0⟩ ⟨5, 1⟩ 1).2.1 (by decide)

theorem pickLoop_eq_exhausted_iff (accs : List Account) (fuel : Nat)
    (interf : List (RotationStore → RotationStore)) (s : RotationStore)
    (h : 0 < fuel) :
    (pickLoop accs fuel interf s).1 = PickResult.exhausted ↔
      availableAccounts accs = [] := by
  induction fuel generalizing interf s with
  | zero => omega
  | succ n ih =>
    simp only [pickLoop]
    by_cases hlen : (availableAccounts accs).length = 0
    · rw [if_pos hlen]
      simp [List.length_eq_zero.mp hlen]
    · rw [if_neg hlen]
      have hne : availableAccounts accs ≠ [] := by
        intro he
        exact hlen (by rw [he]; rfl)
      cases hocc : occCommit s (interf.headD id s)
          ((s.cursor + 1) % (availableAccounts accs).length) with
      | some s2 =>
        simp [hne]
      | none =>
        cases n with
        | zero =>
          show (pickLoop accs 0 interf.tail (interf.headD id s)).1 =
              PickResult.exhausted ↔ availableAccounts accs = []
          simp only [pickLoop]
          simp [hne]
        | succ m =>
          exact ih interf.tail (interf.headD id s) (Nat.succ_pos m)

/-- The HTTP status the spec assigns to `Exhausted`: a retryable-later
service-unavailable condition (spec section 7). -/
def exhaustedHttpStatus : Nat := 503

/-- Claim C5: with a positive retry budget, `pickAccount()` reports
`Exhausted` exactly when filtering the loaded account list to
`available = true` leaves nothing, and `Exhausted` maps to a 5xx
service-unavailable status, not a 4xx client error. -/
theorem pick_exhausted_exactly_when_no_available (accs : List Account)
    (fuel : Nat) (interf : List (RotationStore → RotationStore))
    (s : RotationStore) (h : 0 < fuel) :
    ((pickLoop accs fuel interf s).1 = PickResult.exhausted ↔
        availableAccounts accs = []) ∧
    exhaustedHttpStatus = 503 ∧
    500 ≤ exhaustedHttpStatus ∧
    ¬ (400 ≤ exhaustedHttpStatus ∧ exhaustedHttpStatus < 500) :=
  ⟨pickLoop_eq_exhausted_iff accs fuel interf s h, rfl, by decide, by decide⟩

/-- Witness for C5: an empty registry makes the first pick report
exhaustion. -/
theorem pick_exhausted_exactly_when_no_available_witness :
    ((pickLoop [] 1 [] ⟨0, 0⟩).1 = PickResult.exhausted ↔
        availableAccounts [] = []) ∧
    exhaustedHttpStatus = 503 ∧
    500 ≤ exhaustedHttpStatus ∧
    ¬ (400 ≤ exhaustedHttpStatus ∧ exhaustedHttpStatus < 500) :=
  pick_exhausted_exactly_when_no_available [] 1 [] ⟨0, 0⟩ (by decide)

theorem pickLoop_picked_mem (accs : List Account) (fuel : Nat)
    (interf : List (RotationStore → RotationStore)) (s : RotationStore)
    (a : Account) (h : (pickLoop accs fuel interf s).1 = PickResult.picked a) :
    a ∈ availableAccounts accs := by
  induction fuel generalizing interf s with
  | zero => simp [pickLoop] at h
  | succ n ih =>
    simp only [pickLoop] at h
    by_cases hlen : (availableAccounts accs).length = 0
    · rw [if_pos hlen] at h
      simp at h
    · rw [if_neg hlen] at h
      cases hocc : occCommit s (interf.headD id s)
          ((s.cursor + 1) % (availableAccounts accs).length) with
      | some s2 =>
        rw [hocc] at h
        simp at h
        have hpos : 0 < (availableAccounts accs).length := Nat.pos_of_ne_zero hlen
        have hlt : s.cursor % (availableAccounts accs).length <
            (availableAccounts accs).length := Nat.mod_lt _ hpos
        rw [← h, List.getElem?_eq_getElem hlt]
        exact List.getElem_mem hlt
      | none =>
        rw [hocc] at h
        exact ih interf.tail (interf.headD id s) h

theorem credMarker_ne_empty (cause : String) :
    "CredentialExchangeFailed: " ++ cause ≠ "" := by
  intro he
  have hlen := congrArg String.length he
  rw [String.length_append] at hlen
  have h26 : ("CredentialExchangeFailed: " : String).length = 26 := rfl
  have h0 : ("" : String).length = 0 := rfl
  omega

/-- Claim C6: after an upstream credential-exchange failure is recorded for
an account, that account has `available = false` with the failure marker as
its non-empty `unavailable_reason`, and no subsequent `pickAccount()` call
returns it. -/
theorem credential_failure_disables_account
    (accs accs2 : List Account) (id cause time : String)
    (h : markCredentialExchangeFailed accs id cause time = some accs2) :
    (∀ a ∈ accs2, a.id = id → a.available = false ∧
        a.unavailable_reason = some ("CredentialExchangeFailed: " ++ cause)) ∧
    (∀ fuel interf s a,
        (pickLoop accs2 fuel interf s).1 = PickResult.picked a → a.id ≠ id) := by
  unfold markCredentialExchangeFailed setAvailability at h
  by_cases hmem : accs.any (fun a => a.id = id)
  · rw [if_pos hmem] at h
    cases h
    have hmark : ∀ a ∈ accs.map (fun a =>
        if a.id = id then
          applyAvailability a false (some ("CredentialExchangeFailed: " ++ cause)) time
        else a),
        a.id = id → a.available = false ∧
          a.unavailable_reason = some ("CredentialExchangeFailed: " ++ cause) := by
      intro a ha hid
      rw [List.mem_map] at ha
      obtain ⟨b, hb, hba⟩ := ha
      by_cases hbid : b.id = id
      · rw [if_pos hbid] at hba
        rw [← hba]
        unfold applyAvailability
        refine ⟨by simp, ?_⟩
        simp only [if_neg (by simp : ¬ (false : Bool) = true)]
        show some (reasonOrDefault (some ("CredentialExchangeFailed: " ++ cause))) = _
        simp only [reasonOrDefault]
        rw [if_neg (credMarker_ne_empty cause)]
      · rw [if_neg hbid] at hba
        rw [← hba] at hid
        exact absurd hid hbid
    refine ⟨hmark, ?_⟩
    intro fuel interf s a hp hid
    have hmem2 := pickLoop_picked_mem _ fuel interf s a hp
    unfold availableAccounts at hmem2
    rw [List.mem_filter] at hmem2
    obtain ⟨hmem3, hav⟩ := hmem2
    have hfalse := (hmark a hmem3 hid).1
    rw [hfalse] at hav
    cases hav
  · rw [if_neg hmem] at h
    cases h

/-- A second concrete account, available, used by witnesses. -/
def acctB : Account := { defaultAccount with id := "a2" }

/-- The record for `acctA` after a credential-exchange failure with a 401
marker. -/
def acctAFailed : Account :=
  { defaultAccount with
      id := "a1"
      available := false
      unavailable_reason := some "CredentialExchangeFailed: 401"
      unavailable_time := some "t0" }

/-- Witness for C6: after marking account `a1` failed with a 401, the pick
over the remaining pool returns `a2`, which is not the failed account. -/
theorem credential_failure_disables_account_witness : acctB.id ≠ "a1" :=
  (credential_failure_disables_account [acctA, acctB] [acctAFailed, acctB]
    "a1" "401" "t0" (by decide)).2 1 [] ⟨0, 0⟩ acctB (by decide)

/-! ## Round-robin fairness of sequential picks (claim C1) -/

/-- The sequence of filtered-list indices a run of sequential, conflict-free
picks dispatches: starting from cursor `c` over `K` available accounts, each
pick returns index `c % K` and advances the cursor to `(c + 1) % K`. -/
def rotationTrace (K : Nat) : Nat → Nat → List Nat
  | _, 0 => []
  | c, N + 1 => c % K :: rotationTrace K ((c + 1) % K) N

theorem succ_div_mod_of_lt (K N : Nat) (hK : 0 < K) (hc : N % K + 1 < K) :
    (N + 1) / K = N / K ∧ (N + 1) % K = N % K + 1 := by
  rw [Nat.div_mod_unique hK]
  constructor
  · have hdm := Nat.div_add_mod N K
    omega
  · omega

theorem succ_div_mod_of_eq (K N : Nat) (hK : 0 < K) (hc : N % K + 1 = K) :
    (N + 1) / K = N / K + 1 ∧ (N + 1) % K = 0 := by
  rw [Nat.div_mod_unique hK]
  refine ⟨?_, hK⟩
  have hdm := Nat.div_add_mod N K
  have hexp : K * (N / K + 1) = K * (N / K) + K := by ring
  omega

theorem ceil_div_eq (N K : Nat) (hK : 0 < K) (hr : N % K ≠ 0) :
    (N + K - 1) / K = N / K + 1 := by
  have hdm := Nat.div_add_mod N K
  have hmlt : N % K < K := Nat.mod_lt N hK
  have h : (N + K - 1) / K = N / K + 1 ∧ (N + K - 1) % K = N % K - 1 := by
    rw [Nat.div_mod_unique hK]
    constructor
    · have hexp : K * (N / K + 1) = K * (N / K) + K := by ring
      omega
    · omega
  exact h.1

theorem countP_range_mod (K d : Nat) (hK : 0 < K) (hd : d < K) :
    ∀ N, ((List.range N).countP (fun j => j % K == d)) =
      N / K + if d < N % K then 1 else 0 := by
  intro N
  induction N with
  | zero => simp
  | succ n ih =>
    rw [List.range_succ, List.countP_append, ih]
    have hmod : n % K < K := Nat.mod_lt n hK
    have hsingle : List.countP (fun j => j % K == d) [n] =
        if n % K = d then 1 else 0 := by
      simp [List.countP_cons]
    rw [hsingle]
    by_cases hc : n % K + 1 = K
    · obtain ⟨hdiv2, hmod2⟩ := succ_div_mod_of_eq K n hK hc
      rw [hdiv2, hmod2]
      by_cases hnd : n % K = d
      · rw [if_pos hnd, if_neg (by omega : ¬ d < 0), if_neg (by omega : ¬ d < n % K)]
      · rw [if_neg hnd, if_neg (by omega : ¬ d < 0), if_pos (by omega : d < n % K)]
    · obtain ⟨hdiv2, hmod2⟩ := succ_div_mod_of_lt K n hK (by omega)
      rw [hdiv2, hmod2]
      by_cases hnd : n % K = d
      · rw [if_pos hnd, if_neg (by omega : ¬ d < n % K),
          if_pos (by omega : d < n % K + 1)]
      · rw [if_neg hnd]
        by_cases hdn : d < n % K
        · rw [if_pos hdn, if_pos (by omega : d < n % K + 1)]
        · rw [if_neg hdn, if_neg (by omega : ¬ d < n % K + 1)]

theorem mod_shift_iff (K c j i : Nat) (hK : 0 < K) (hi : i < K) :
    (c + j) % K = i ↔ j % K = (i + (K - c % K)) % K := by
  have hc : c % K < K := Nat.mod_lt c hK
  constructor
  · intro h
    have hdm := Nat.div_add_mod c K
    have h2 : (i + (K - c % K)) % K = ((c + j) % K + (K - c % K)) % K := by rw [h]
    rw [Nat.mod_add_mod] at h2
    have h3 : c + j + (K - c % K) = j + K * (c / K) + K := by omega
    rw [h3, Nat.add_mod_right, Nat.add_mul_mod_self_left] at h2
    exact h2.symm
  · intro h
    rw [Nat.add_mod, h, Nat.add_mod_mod]
    have h4 : c % K + (i + (K - c % K)) = i + K := by omega
    rw [h4, Nat.add_mod_right]
    exact Nat.mod_eq_of_lt hi

theorem rotationTrace_eq_map (K : Nat) :
    ∀ (N c : Nat), rotationTrace K c N = (List.range N).map (fun j => (c + j) % K) := by
  intro N
  induction N with
  | zero => intro c; rfl
  | succ n ih =>
    intro c
    rw [List.range_succ_eq_map]
    simp only [rotationTrace, List.map_cons, List.map_map]
    congr 1
    rw [ih ((c + 1) % K)]
    apply List.map_congr_left
    intro a _
    show ((c + 1) % K + a) % K = (c + Nat.succ a) % K
    rw [Nat.mod_add_mod]
    congr 1
    omega

theorem count_rotationTrace (K c i N : Nat) (hK : 0 < K) (hi : i < K) :
    (rotationTrace K c N).count i =
      N / K + if (i + (K - c % K)) % K < N % K then 1 else 0 := by
  have hd : (i + (K - c % K)) % K < K := Nat.mod_lt _ hK
  rw [rotationTrace_eq_map, List.count_eq_countP, List.countP_map]
  have hcong : ∀ x ∈ List.range N,
      (((· == i) ∘ fun j => (c + j) % K) x) ↔
        ((fun j => j % K == (i + (K - c % K)) % K) x) := by
    intro j _
    simp only [Function.comp_apply, beq_iff_eq]
    exact mod_shift_iff K c j i hK hi
  rw [List.countP_congr hcong]
  exact countP_range_mod K ((i + (K - c % K)) % K) hK hd N

theorem rotationTrace_lt (K : Nat) (hK : 0 < K) :
    ∀ N c, ∀ j ∈ rotationTrace K c N, j < K := by
  intro N
  induction N with
  | zero => intro c j hj; cases hj
  | succ n ih =>
    intro c j hj
    simp only [rotationTrace, List.mem_cons] at hj
    cases hj with
    | inl h => rw [h]; exact Nat.mod_lt c hK
    | inr h => exact ih ((c + 1) % K) j h

theorem rotationTrace_drop (K : Nat) :
    ∀ (m N c : Nat),
      (rotationTrace K c N).drop m = rotationTrace K ((c + m) % K) (N - m) := by
  intro m
  induction m with
  | zero =>
    intro N c
    simp only [List.drop_zero, Nat.add_zero, Nat.sub_zero]
    rw [rotationTrace_eq_map, rotationTrace_eq_map]
    apply List.map_congr_left
    intro a _
    rw [Nat.mod_add_mod]
  | succ mm ih =>
    intro N c
    cases N with
    | zero => simp [rotationTrace, Nat.zero_sub]
    | succ n =>
      simp only [rotationTrace, List.drop_succ_cons]
      rw [ih n ((c + 1) % K)]
      congr 1
      · rw [Nat.mod_add_mod]
        congr 1
        omega
      · omega

theorem rotationTrace_take (K : Nat) :
    ∀ (m N c : Nat), (rotationTrace K c N).take m = rotationTrace K c (min m N) := by
  intro m
  induction m with
  | zero => intro N c; simp [rotationTrace, Nat.zero_min]
  | succ mm ih =>
    intro N c
    cases N with
    | zero => simp [rotationTrace, Nat.min_zero]
    | succ n =>
      simp only [rotationTrace, List.take_succ_cons]
      rw [ih n ((c + 1) % K)]
      have hmin : min (mm + 1) (n + 1) = min mm n + 1 := by omega
      rw [hmin]
      simp only [rotationTrace]

/-- `N` sequential, non-concurrent picks (no interference, fresh retry budget
each call) against a fixed account set, collecting the results. -/
def runRotation (accs : List Account) : RotationStore → Nat → List PickResult × RotationStore
  | s, 0 => ([], s)
  | s, N + 1 =>
    ((pickLoop accs 1 [] s).1 :: (runRotation accs (pickLoop accs 1 [] s).2 N).1,
      (runRotation accs (pickLoop accs 1 [] s).2 N).2)

theorem pickLoop_no_interference (accs : List Account) (s : RotationStore)
    (hlen : (availableAccounts accs).length ≠ 0) :
    pickLoop accs 1 [] s =
      (PickResult.picked ((availableAccounts accs).getD
          (s.cursor % (availableAccounts accs).length) defaultAccount),
        { cursor := (s.cursor + 1) % (availableAccounts accs).length
          version := s.version + 1 }) := by
  have hocc : occCommit s (([] : List (RotationStore → RotationStore)).headD id s)
      ((s.cursor + 1) % (availableAccounts accs).length) =
      some { cursor := (s.cursor + 1) % (availableAccounts accs).length
             version := s.version + 1 } := by
    show occCommit s s ((s.cursor + 1) % (availableAccounts accs).length) = _
    unfold occCommit
    rw [if_pos rfl]
  simp only [pickLoop]
  rw [if_neg hlen, hocc]

theorem runRotation_fst (accs : List Account)
    (hlen : (availableAccounts accs).length ≠ 0) :
    ∀ (N : Nat) (s : RotationStore),
      (runRotation accs s N).1 =
        (rotationTrace (availableAccounts accs).length s.cursor N).map
          (fun j => PickResult.picked ((availableAccounts accs).getD j defaultAccount)) := by
  intro N
  induction N with
  | zero => intro s; rfl
  | succ n ih =>
    intro s
    simp only [runRotation]
    rw [pickLoop_no_interference accs s hlen]
    simp only [rotationTrace, List.map_cons]
    congr 1
    exact ih { cursor := (s.cursor + 1) % (availableAccounts accs).length
               version := s.version + 1 }

theorem count_picked_map (avail : List Account) (hnd : avail.Nodup) (i : Nat)
    (hi : i < avail.length) :
    ∀ (tr : List Nat), (∀ j ∈ tr, j < avail.length) →
      (tr.map (fun j => PickResult.picked (avail.getD j defaultAccount))).count
          (PickResult.picked (avail.getD i defaultAccount)) = tr.count i := by
  intro tr
  induction tr with
  | nil => intro _; rfl
  | cons j tl ih =>
    intro htr
    simp only [List.map_cons, List.count_cons]
    rw [ih (fun x hx => htr x (List.mem_cons_of_mem j hx))]
    congr 1
    have hj : j < avail.length := htr j (List.mem_cons_self j tl)
    by_cases hji : j = i
    · rw [hji]
      simp
    · have hne : avail.getD j defaultAccount ≠ avail.getD i defaultAccount := by
        rw [List.getD_eq_getElem avail defaultAccount hj,
          List.getD_eq_getElem avail defaultAccount hi]
        intro he
        exact hji ((List.Nodup.getElem_inj_iff hnd).mp he)
      have h1 : (PickResult.picked (avail.getD j defaultAccount) ==
          PickResult.picked (avail.getD i defaultAccount)) = false :=
        beq_eq_false_iff_ne.mpr (fun he => hne (PickResult.picked.inj he))
      have h2 : (j == i) = false := beq_eq_false_iff_ne.mpr hji
      rw [h1, h2]

/-- Claim C1: under `N` sequential, non-concurrent picks over a fixed account
set with `K ≥ 1` available (pairwise distinct) accounts, every available
account is chosen exactly `N / K` (floor) or `(N + K - 1) / K` (ceiling)
times, and every window of `K` consecutive picks dispatches each available
account exactly once (so no account is skipped a full cycle while another is
picked again). -/
theorem rotation_fairness
    (accs : List Account) (s : RotationStore) (N i : Nat)
    (hnd : (availableAccounts accs).Nodup)
    (hi : i < (availableAccounts accs).length) :
    ((runRotation accs s N).1.count
        (PickResult.picked ((availableAccounts accs).getD i defaultAccount)) =
          N / (availableAccounts accs).length ∨
      (runRotation accs s N).1.count
        (PickResult.picked ((availableAccounts accs).getD i defaultAccount)) =
          (N + (availableAccounts accs).length - 1) / (availableAccounts accs).length) ∧
    (∀ m, m + (availableAccounts accs).length ≤ N →
      (((runRotation accs s N).1.drop m).take (availableAccounts accs).length).count
          (PickResult.picked ((availableAccounts accs).getD i defaultAccount)) = 1) := by
  have hK : 0 < (availableAccounts accs).length := Nat.lt_of_le_of_lt (Nat.zero_le i) hi
  have hlen : (availableAccounts accs).length ≠ 0 := Nat.pos_iff_ne_zero.mp hK
  have hrun := runRotation_fst accs hlen N s
  constructor
  · rw [hrun]
    rw [count_picked_map (availableAccounts accs) hnd i hi
      (rotationTrace (availableAccounts accs).length s.cursor N)
      (rotationTrace_lt (availableAccounts accs).length hK N s.cursor)]
    rw [count_rotationTrace (availableAccounts accs).length s.cursor i N hK hi]
    by_cases hr : N % (availableAccounts accs).length = 0
    · left
      rw [hr, if_neg (by omega), Nat.add_zero]
    · by_cases hcond : (i + ((availableAccounts accs).length -
          s.cursor % (availableAccounts accs).length)) %
          (availableAccounts accs).length < N % (availableAccounts accs).length
      · right
        rw [if_pos hcond, ceil_div_eq N (availableAccounts accs).length hK hr]
      · left
        rw [if_neg hcond, Nat.add_zero]
  · intro m hm
    rw [hrun, ← List.map_drop, ← List.map_take, rotationTrace_drop, rotationTrace_take]
    have hNm : min (availableAccounts accs).length (N - m) =
        (availableAccounts accs).length := by omega
    rw [hNm]
    rw [count_picked_map (availableAccounts accs) hnd i hi _
      (rotationTrace_lt (availableAccounts accs).length hK
        (availableAccounts accs).length ((s.cursor + m) % (availableAccounts accs).length))]
    rw [count_rotationTrace (availableAccounts accs).length
      ((s.cursor + m) % (availableAccounts accs).length) i
      (availableAccounts accs).length hK hi]
    rw [Nat.div_self hK, Nat.mod_self]
    rw [if_neg (by omega), Nat.add_zero]

/-- Witness for C1: three sequential picks over the two-account pool pick the
first account twice, which is the ceiling of 3/2, and both length-2 windows
contain it exactly once. -/
theorem rotation_fairness_witness :
    ((runRotation [acctA, acctB] ⟨0, 0⟩ 3).1.count
        (PickResult.picked ((availableAccounts [acctA, acctB]).getD 0 defaultAccount)) =
          3 / (availableAccounts [acctA, acctB]).length ∨
      (runRotation [acctA, acctB] ⟨0, 0⟩ 3).1.count
        (PickResult.picked ((availableAccounts [acctA, acctB]).getD 0 defaultAccount)) =
          (3 + (availableAccounts [acctA, acctB]).length - 1) /
            (availableAccounts [acctA, acctB]).length) ∧
    (∀ m, m + (availableAccounts [acctA, acctB]).length ≤ 3 →
      (((runRotation [acctA, acctB] ⟨0, 0⟩ 3).1.drop m).take
          (availableAccounts [acctA, acctB]).length).count
          (PickResult.picked ((availableAccounts [acctA, acctB]).getD 0 defaultAccount)) = 1) :=
  rotation_fairness [acctA, acctB] ⟨0, 0⟩ 3 0 (by decide) (by decide)
